import Mathlib

/-!
Verification development for the Lingua-Local conversation backend.

The definitions below are a shallow embedding of the Python sources:
  backend/app/utils/language.py   (LanguageHelper)
  backend/app/routes/conversation.py (session store, streaming event generators)
  backend/app/models/tts.py       (TTSHandler.synthesize_segments)
Strings are modelled as Lean Strings (lists of characters), Python dicts as
association lists, regular-expression scans as explicit left-to-right
character scanners, and the external STT/LLM/TTS collaborators as abstract
inputs (transcription results, chunk sequences, decoded sample lists).
-/

set_option maxRecDepth 4096

namespace LinguaLocal

/-! ### Basic string helpers (Python str methods) -/

/-- Python str.lower, character by character (ASCII case folding). -/
def lowerStr (s : String) : String := ⟨s.data.map Char.toLower⟩

/-- Build a string back from its character list. -/
def str_of_chars (l : List Char) : String := ⟨l⟩

/-- Python `a or b` on strings: the empty string is falsy. -/
def py_or (a b : String) : String := if a = "" then b else a

/-- Python truthiness of an Optional[str]. -/
def opt_truthy : Option String → Bool
  | none => false
  | some s => if s = "" then false else true

/-- One pass of re.sub("\\s+", " ", text): every maximal whitespace run is
replaced by a single space.  The flag records whether the previous character
was whitespace (so the run is already represented). -/
def collapse_ws_aux : Bool → List Char → List Char
  | _, [] => []
  | prevWs, c :: rest =>
    if c.isWhitespace then
      if prevWs then collapse_ws_aux true rest
      else ' ' :: collapse_ws_aux true rest
    else c :: collapse_ws_aux false rest

/-- Remove a trailing whitespace run (the right half of Python str.strip). -/
def drop_trail_ws : List Char → List Char
  | [] => []
  | c :: rest =>
    let r := drop_trail_ws rest
    if r.isEmpty && c.isWhitespace then [] else c :: r

/-- Python str.strip(): drop leading and trailing whitespace. -/
def strip_ends (l : List Char) : List Char :=
  drop_trail_ws (l.dropWhile Char.isWhitespace)

/-- LanguageHelper._clean_segment_text on character lists:
re.sub("\\s+", " ", text).strip(). -/
def clean_list (l : List Char) : List Char := strip_ends (collapse_ws_aux false l)

/-- LanguageHelper._clean_segment_text. -/
def clean_segment_text (s : String) : String := str_of_chars (clean_list s.data)

/-! ### Speech tag removal (LanguageHelper.strip_speech_tags)

re.sub(r"\\[/?(?:EN|TL)\\]", "", text, flags=IGNORECASE) is embedded as a
left-to-right scan: at each position the scanner removes a 5-character
closing marker or a 4-character opening marker when one starts there,
otherwise it keeps the character and advances by one. -/

/-- Case-insensitive test for the two tag words EN and TL. -/
def is_tag_word (a b : Char) : Bool :=
  (a.toLower == 'e' && b.toLower == 'n') || (a.toLower == 't' && b.toLower == 'l')

/-- The marker-removal pass of strip_speech_tags. -/
def remove_tag_markers : List Char → List Char
  | '[' :: '/' :: a :: b :: ']' :: rest =>
    if is_tag_word a b then remove_tag_markers rest
    else '[' :: remove_tag_markers ('/' :: a :: b :: ']' :: rest)
  | '[' :: a :: b :: ']' :: rest =>
    if is_tag_word a b then remove_tag_markers rest
    else '[' :: remove_tag_markers (a :: b :: ']' :: rest)
  | c :: rest => c :: remove_tag_markers rest
  | [] => []

/-- LanguageHelper.strip_speech_tags. -/
def strip_speech_tags (text : String) : String :=
  if text = "" then ""
  else str_of_chars (clean_list (remove_tag_markers text.data))

/-! ### English heuristic (LanguageHelper._looks_like_english) -/

/-- LanguageHelper.ENGLISH_HINT_WORDS. -/
def ENGLISH_HINT_WORDS : List String :=
  ["a", "an", "and", "are", "do", "for", "from", "have", "how", "i", "in", "is",
   "it", "my", "of", "on", "please", "the", "this", "to", "we", "what", "where",
   "you", "your"]

/-- Character class of re.findall(r"[a-zA-Z']+", ...). -/
def is_word_char (c : Char) : Bool :=
  ('a' ≤ c && c ≤ 'z') || ('A' ≤ c && c ≤ 'Z') || c == '\''

/-- Maximal runs of word characters; acc holds the current run reversed. -/
def split_words_aux (acc : List Char) : List Char → List (List Char)
  | [] => if acc.isEmpty then [] else [acc.reverse]
  | c :: rest =>
    if is_word_char c then split_words_aux (c :: acc) rest
    else if acc.isEmpty then split_words_aux [] rest
    else acc.reverse :: split_words_aux [] rest

/-- re.findall(r"[a-zA-Z']+", text). -/
def split_words (l : List Char) : List (List Char) := split_words_aux [] l

/-- The tokenizer applied to text.lower(), as in _looks_like_english. -/
def english_words (l : List Char) : List (List Char) :=
  split_words (l.map Char.toLower)

/-- Number of tokens that are in the fixed hint-word set. -/
def english_hint_hits (l : List Char) : Nat :=
  (english_words l).countP (fun w => ENGLISH_HINT_WORDS.contains (str_of_chars w))

/-- LanguageHelper._looks_like_english. -/
def looks_like_english (l : List Char) : Bool :=
  let words := english_words l
  if words.isEmpty then false
  else decide (english_hint_hits l ≥ max 2 (words.length / 3))

/-! ### Tagged segmentation (LanguageHelper.split_speech_segments)

SPEECH_TAG_PATTERN = re.compile(r"\\[(EN|TL)\\](.*?)\\[/\\1\\]", IGNORECASE | DOTALL).
finditer is embedded as: find the leftmost position where an opening marker
starts and the matching (case-insensitive, same word) closing marker occurs
later; the lazy group takes the earliest such closer; scanning resumes after
the consumed match. -/

inductive SpeechTag where
  | EN
  | TL
deriving DecidableEq

/-- Does the character pair spell this tag word (case-insensitively)? -/
def tag_matches (t : SpeechTag) (a b : Char) : Bool :=
  match t with
  | .EN => a.toLower == 'e' && b.toLower == 'n'
  | .TL => a.toLower == 't' && b.toLower == 'l'

/-- An opening marker at the head of the list: "[EN]" or "[TL]", any case. -/
def open_tag : List Char → Option (SpeechTag × List Char)
  | '[' :: a :: b :: ']' :: rest =>
    if tag_matches .EN a b then some (.EN, rest)
    else if tag_matches .TL a b then some (.TL, rest)
    else none
  | _ => none

/-- Earliest occurrence of the closing marker of tag t; returns the content
before it and the remainder after it. -/
def find_close (t : SpeechTag) : List Char → Option (List Char × List Char)
  | '[' :: '/' :: a :: b :: ']' :: rest =>
    if tag_matches t a b then some ([], rest)
    else
      match find_close t ('/' :: a :: b :: ']' :: rest) with
      | some (content, after) => some ('[' :: content, after)
      | none => none
  | c :: rest =>
    match find_close t rest with
    | some (content, after) => some (c :: content, after)
    | none => none
  | [] => none

/-- A full tag match starting exactly at the head of the list. -/
def try_tag_match (l : List Char) : Option (SpeechTag × List Char × List Char) :=
  match open_tag l with
  | none => none
  | some (t, afterOpen) =>
    match find_close t afterOpen with
    | none => none
    | some (content, after) => some (t, content, after)

/-- Leftmost tag match: pre-gap text, tag, content, remainder. -/
def find_first_match : List Char → Option (List Char × SpeechTag × List Char × List Char)
  | [] => none
  | c :: rest =>
    match try_tag_match (c :: rest) with
    | some (t, content, after) => some ([], t, content, after)
    | none =>
      match find_first_match rest with
      | some (pre, t, content, after) => some (c :: pre, t, content, after)
      | none => none

/-- The interleaved gap / tagged-span structure produced by the finditer loop. -/
inductive TagToken where
  | gap (text : List Char)
  | tagged (t : SpeechTag) (content : List Char)
deriving DecidableEq

/-- Fuelled scanner; each match consumes at least nine characters, so fuel
(length + 1) always suffices. -/
def tokenize_tags_go (fuel : Nat) (l : List Char) : List TagToken :=
  match fuel with
  | 0 => [TagToken.gap l]
  | fuel + 1 =>
    match find_first_match l with
    | none => [TagToken.gap l]
    | some (pre, t, content, after) =>
      TagToken.gap pre :: TagToken.tagged t content :: tokenize_tags_go fuel after

/-- The sequence gap, match, gap, match, ..., trailing gap of the source loop. -/
def tokenize_tags (l : List Char) : List TagToken :=
  tokenize_tags_go (l.length + 1) l

/-- A language-labelled speech span ({"text": ..., "language": ...}). -/
structure SpeechSegment where
  text : String
  language : String
deriving DecidableEq

/-- The gap heuristic of split_speech_segments: explanation language when the
text looks like English and the two languages differ, else target language.
Arguments are already lowercased. -/
def guessed_language (targetL explL : String) (cleaned : List Char) : String :=
  if targetL ≠ explL ∧ looks_like_english cleaned then explL else targetL

/-- Segments contributed by one token of the scan (cleaning, dropping empty
spans, and labelling, exactly as in the source loop body). -/
def token_segments (targetL explL : String) : TagToken → List SpeechSegment
  | .gap g =>
    let c := clean_list g
    if c.isEmpty then [] else [⟨str_of_chars c, guessed_language targetL explL c⟩]
  | .tagged t content =>
    let c := clean_list content
    if c.isEmpty then []
    else [⟨str_of_chars c, if t = SpeechTag.EN then explL else targetL⟩]

/-- LanguageHelper.EXPLANATION_LANGUAGE_CODE. -/
def EXPLANATION_LANGUAGE_CODE : String := "en"

/-- LanguageHelper.split_speech_segments. -/
def split_speech_segments (text target_language explanation_language : String) :
    List SpeechSegment :=
  if text = "" then []
  else
    let targetL := lowerStr target_language
    let explL := lowerStr explanation_language
    match find_first_match text.data with
    | none =>
      let cleaned := clean_list text.data
      if cleaned.isEmpty then []
      else [⟨str_of_chars cleaned, guessed_language targetL explL cleaned⟩]
    | some _ => (tokenize_tags text.data).flatMap (token_segments targetL explL)

/-! ### Voice catalog and selection (LanguageHelper voice policy) -/

/-- Association-list lookup (Python dict get). -/
def alist_lookup {α : Type} (l : List (String × α)) (k : String) : Option α :=
  match l with
  | [] => none
  | (k2, v) :: rest => if k2 = k then some v else alist_lookup rest k

/-- LanguageHelper.DEFAULT_TTS_FALLBACK_VOICE. -/
def DEFAULT_TTS_FALLBACK_VOICE : String := "en_US-lessac-medium"

/-- LanguageHelper.VOICE_STYLE_OPTIONS. -/
def VOICE_STYLE_OPTIONS : List String := ["female", "male"]

/-- LanguageHelper.TEACHING_INTENSITY_OPTIONS. -/
def TEACHING_INTENSITY_OPTIONS : List String := ["light", "standard", "deep"]

/-- LanguageHelper.TTS_VOICES. -/
def TTS_VOICES : List (String × List String) :=
  [("en", ["en_US-amy-medium", "en_GB-alan-medium", "en_US-lessac-medium"]),
   ("es", ["es_MX-ald-medium", "es_ES-davefx-medium"]),
   ("fr", ["fr_FR-siwis-medium", "fr_FR-upmc-medium"]),
   ("de", ["de_DE-karlsson-low", "de_DE-thorsten-medium"]),
   ("it", ["it_IT-riccardo-medium"]),
   ("pt", ["pt_BR-faber-medium", "pt_PT-tugao-medium"]),
   ("ja", ["ja_JP-kokoro-medium"]),
   ("zh", ["zh_CN-huayan-medium"]),
   ("ko", ["ko_KR-keonhee-medium"]),
   ("ar", ["ar_JO-kareem-medium"]),
   ("nl", ["nl_NL-mls-medium"]),
   ("ru", ["ru_RU-dmitri-medium"]),
   ("th", ["th_TH-pongkul-medium"]),
   ("vi", ["vi_VN-vivos-medium"]),
   ("tr", ["tr_TR-dfki-medium"]),
   ("el", ["el_GR-rapunzelina-low"]),
   ("pl", ["pl_PL-mls-medium"])]

/-- LanguageHelper.TTS_VOICE_GENDER. -/
def TTS_VOICE_GENDER : List (String × String) :=
  [("en_US-amy-medium", "female"),
   ("en_GB-alan-medium", "male"),
   ("en_US-lessac-medium", "male"),
   ("es_MX-ald-medium", "female"),
   ("es_ES-davefx-medium", "male"),
   ("fr_FR-siwis-medium", "female"),
   ("fr_FR-upmc-medium", "male"),
   ("de_DE-karlsson-low", "female"),
   ("de_DE-thorsten-medium", "male"),
   ("it_IT-riccardo-medium", "male"),
   ("pt_BR-faber-medium", "female"),
   ("pt_PT-tugao-medium", "male"),
   ("ja_JP-kokoro-medium", "female"),
   ("zh_CN-huayan-medium", "female"),
   ("ko_KR-keonhee-medium", "male"),
   ("ar_JO-kareem-medium", "male"),
   ("nl_NL-mls-medium", "female"),
   ("ru_RU-dmitri-medium", "male"),
   ("th_TH-pongkul-medium", "male"),
   ("vi_VN-vivos-medium", "female"),
   ("tr_TR-dfki-medium", "male"),
   ("el_GR-rapunzelina-low", "female"),
   ("pl_PL-mls-medium", "female")]

/-- LanguageHelper.get_voice_gender. -/
def get_voice_gender (voice : String) : String :=
  (alist_lookup TTS_VOICE_GENDER voice).getD "unknown"

/-- LanguageHelper.normalize_voice_style. -/
def normalize_voice_style (voice_style : Option String) : String :=
  let base :=
    match voice_style with
    | none => "female"
    | some s => if s = "" then "female" else s
  let candidate := lowerStr base
  if candidate ∈ VOICE_STYLE_OPTIONS then candidate else "female"

/-- LanguageHelper.normalize_teaching_intensity. -/
def normalize_teaching_intensity (teaching_intensity : Option String) : String :=
  let base :=
    match teaching_intensity with
    | none => "standard"
    | some s => if s = "" then "standard" else s
  let candidate := lowerStr base
  if candidate ∈ TEACHING_INTENSITY_OPTIONS then candidate else "standard"

/-- The voice list the catalog holds for a language (empty when absent). -/
def voices_for (language : String) : List String :=
  (alist_lookup TTS_VOICES (lowerStr language)).getD []

/-- The gender scan of get_tts_voice: first voice whose gender metadata
matches the normalized style, else the first listed voice. -/
def style_scan (voices : List String) (first : String) (normalized : String) : String :=
  match voices.find? (fun w => get_voice_gender w == normalized) with
  | some w => w
  | none => first

/-- The `preference and preference in voices` test of get_tts_voice
(Python truthiness: a missing or empty preference never hits). -/
def explicit_preference_hit (preference : Option String) (voices : List String) : Bool :=
  match preference with
  | none => false
  | some p => if p = "" then false else voices.contains p

/-- LanguageHelper.get_tts_voice. -/
def get_tts_voice (language : String) (preference voice_style : Option String) : String :=
  match voices_for language with
  | [] => DEFAULT_TTS_FALLBACK_VOICE
  | v :: vs =>
    if explicit_preference_hit preference (v :: vs) then preference.getD ""
    else style_scan (v :: vs) v (normalize_voice_style voice_style)

/-! ### Generation settings (LanguageHelper.get_generation_settings) -/

/-- The {max_tokens, temperature, top_p} record; token counts are integers,
sampling parameters exact rationals. -/
structure GenerationSettings where
  max_tokens : Int
  temperature : Rat
  top_p : Rat
deriving DecidableEq

/-- The per-difficulty defaults table, with dict-get fallback to beginner. -/
def gen_defaults (level : String) : GenerationSettings :=
  if level = "beginner" then ⟨220, 45/100, 85/100⟩
  else if level = "intermediate" then ⟨240, 55/100, 90/100⟩
  else if level = "advanced" then ⟨256, 65/100, 92/100⟩
  else ⟨220, 45/100, 85/100⟩

/-- LanguageHelper.get_generation_settings. -/
def get_generation_settings (difficulty teaching_intensity : String) : GenerationSettings :=
  let level := lowerStr difficulty
  let intensity := normalize_teaching_intensity (some teaching_intensity)
  let s := gen_defaults level
  if intensity = "light" then
    { s with
      max_tokens := max 140 (s.max_tokens - 60),
      temperature := max (35/100) (s.temperature - 8/100) }
  else if intensity = "deep" then
    { s with
      max_tokens := min 340 (s.max_tokens + 80),
      temperature := min (72/100) (s.temperature + 5/100) }
  else s

/-! ### Session store (routes/conversation.py, conversation_sessions) -/

/-- A single conversation message (pydantic ConversationMessage). -/
structure ConversationMessage where
  role : String
  content : String
  language : Option String
deriving DecidableEq

/-- The in-memory session dict, keyed by session id. -/
abbrev SessionStore : Type := List (String × List ConversationMessage)

/-- Dict read. -/
def store_lookup (store : SessionStore) (k : String) : Option (List ConversationMessage) :=
  match store with
  | [] => none
  | (k2, v) :: rest => if k2 = k then some v else store_lookup rest k

/-- Dict write (replace existing key or append a new entry). -/
def store_set (store : SessionStore) (k : String) (v : List ConversationMessage) :
    SessionStore :=
  match store with
  | [] => [(k, v)]
  | (k2, v2) :: rest => if k2 = k then (k, v) :: rest else (k2, v2) :: store_set rest k v

/-- Dict del (removes the key). -/
def store_erase (store : SessionStore) (k : String) : SessionStore :=
  match store with
  | [] => []
  | (k2, v2) :: rest => if k2 = k then store_erase rest k else (k2, v2) :: store_erase rest k

/-- The `if not session_id: session_id = "default"` normalization. -/
def resolve_session_id (session_id : Option String) : String :=
  match session_id with
  | none => "default"
  | some s => if s = "" then "default" else s

/-- One completed turn on a session history: append the user and assistant
messages, then keep only the last 20 messages (history[-20:]). -/
def append_and_trim (history : List ConversationMessage)
    (u a : ConversationMessage) : List ConversationMessage :=
  let h := history ++ [u, a]
  if 20 < h.length then h.drop (h.length - 20) else h

/-- N completed turns applied to an initially empty session. -/
def run_turns (pairs : List (ConversationMessage × ConversationMessage)) :
    List ConversationMessage :=
  pairs.foldl (fun acc p => append_and_trim acc p.1 p.2) []

/-! ### Streaming protocol events (routes/conversation.py event generators) -/

/-- The server-sent events the two streaming endpoints yield.  The audio
path uses responseChunk ("response_chunk"), the text path uses chunk
("chunk"); payload fields mirror the json bodies in the source. -/
inductive SSEvent where
  | start (status : String)
  | transcription (text language : String)
  | responseStart (status : String)
  | responseChunk (text : String)
  | chunk (text : String)
  | complete (full_response speech_script display_response language : String)
  | errorEvent (msg : String)
deriving DecidableEq

/-- The event name written after `event:` in the SSE record. -/
def SSEvent.name : SSEvent → String
  | .start _ => "start"
  | .transcription _ _ => "transcription"
  | .responseStart _ => "response_start"
  | .responseChunk _ => "response_chunk"
  | .chunk _ => "chunk"
  | .complete _ _ _ _ => "complete"
  | .errorEvent _ => "error"

/-- The incremental text payload of a chunk-bearing event. -/
def chunk_payload : SSEvent → Option String
  | .responseChunk c => some c
  | .chunk c => some c
  | _ => none

/-- The for-loop over generate_stream: accumulate full_response and yield one
chunk event per engine chunk, in emission order. -/
def stream_chunk_loop (mk : String → SSEvent) (acc : String) :
    List String → List SSEvent × String
  | [] => ([], acc)
  | c :: cs =>
    let r := stream_chunk_loop mk (acc ++ c) cs
    (mk c :: r.1, r.2)

/-- Concatenation of the engine chunks in emission order. -/
def string_concat : List String → String
  | [] => ""
  | c :: cs => c ++ string_concat cs

/-- Outcome of the STT collaborator: a transcription (text, language) or an
exception message. -/
inductive SttResult where
  | ok (text language : String)
  | fail (msg : String)

/-- Outcome of iterating the LLM collaborator generate_stream: either all
chunks in emission order, or the chunks emitted before an exception. -/
inductive LlmStreamResult where
  | ok (chunks : List String)
  | failAfter (chunks : List String) (msg : String)

/-- The error message of the empty-transcription guard. -/
def no_speech_message : String :=
  "No speech detected in audio. Please try speaking louder or closer to the microphone."

/-- _prepare_speech_response: display text, speech script and segments. -/
structure PreparedSpeech where
  response : String
  speech_script : String
  speech_segments : List SpeechSegment
deriving DecidableEq

/-- routes/conversation.py _prepare_speech_response. -/
def prepare_speech_response (response_text target_language : String) : PreparedSpeech :=
  let speech_script := response_text
  let clean_response := py_or (strip_speech_tags speech_script) speech_script
  let segs := split_speech_segments speech_script target_language EXPLANATION_LANGUAGE_CODE
  let segs :=
    if segs.isEmpty ∧ clean_response ≠ "" then
      [⟨clean_response, lowerStr target_language⟩]
    else segs
  { response := clean_response, speech_script := speech_script, speech_segments := segs }

/-- text_conversation_stream.event_generator: the event sequence produced for
one request, as a function of the LLM collaborator outcome (none models the
handler-missing RuntimeError raised before the start event). -/
def text_stream_events (llm : Option LlmStreamResult) (language : String) : List SSEvent :=
  match llm with
  | none => [SSEvent.errorEvent "LLM model is not available"]
  | some (.failAfter chunks msg) =>
    SSEvent.start "generating" ::
      (stream_chunk_loop SSEvent.chunk "" chunks).1 ++ [SSEvent.errorEvent msg]
  | some (.ok chunks) =>
    let r := stream_chunk_loop SSEvent.chunk "" chunks
    SSEvent.start "generating" ::
      r.1 ++ [SSEvent.complete r.2 r.2 (py_or (strip_speech_tags r.2) r.2) language]

/-- speak_and_respond_stream.event_generator: the yielded event sequence and
the session store after the generator finishes.  missing_handler models the
handler checks that raise before the start event; the empty-transcription
guard, lazy session creation, chunk streaming, history append-and-trim and
the terminal events follow the source control flow. -/
def speak_stream_run (store : SessionStore) (session_id : Option String)
    (missing_handler : Option String) (stt : SttResult) (llm : LlmStreamResult)
    (language : String) : List SSEvent × SessionStore :=
  match missing_handler with
  | some msg => ([SSEvent.errorEvent msg], store)
  | none =>
    match stt with
    | .fail msg => ([SSEvent.start "transcribing", SSEvent.errorEvent msg], store)
    | .ok user_text detected_language =>
      if user_text.data.all Char.isWhitespace then
        ([SSEvent.start "transcribing", SSEvent.errorEvent no_speech_message], store)
      else
        let sid := resolve_session_id session_id
        let store1 :=
          if (store_lookup store sid).isNone then store_set store sid [] else store
        let history := (store_lookup store1 sid).getD []
        match llm with
        | .failAfter chunks msg =>
          (SSEvent.start "transcribing" ::
             SSEvent.transcription user_text detected_language ::
             SSEvent.responseStart "generating" ::
             (stream_chunk_loop SSEvent.responseChunk "" chunks).1 ++
             [SSEvent.errorEvent msg],
           store1)
        | .ok chunks =>
          let r := stream_chunk_loop SSEvent.responseChunk "" chunks
          let full_response := r.2
          let prepared := prepare_speech_response full_response language
          let user_msg : ConversationMessage :=
            ⟨"user", user_text, some detected_language⟩
          let assistant_msg : ConversationMessage :=
            ⟨"assistant", prepared.response, some language⟩
          let store2 := store_set store1 sid (append_and_trim history user_msg assistant_msg)
          (SSEvent.start "transcribing" ::
             SSEvent.transcription user_text detected_language ::
             SSEvent.responseStart "generating" ::
             r.1 ++
             [SSEvent.complete full_response prepared.speech_script prepared.response language],
           store2)

/-! ### Session read and clear endpoints -/

/-- Response body of GET /session: the session_id key is present only when
the session exists. -/
structure SessionHistoryResponse where
  session_id : Option String
  messages : List ConversationMessage
deriving DecidableEq

/-- get_session_history: read-only; an unknown id yields an empty message
list and the store is returned untouched. -/
def get_session_history (store : SessionStore) (sid : String) :
    SessionHistoryResponse × SessionStore :=
  match store_lookup store sid with
  | none => ({ session_id := none, messages := [] }, store)
  | some msgs => ({ session_id := some sid, messages := msgs }, store)

/-- Response body of DELETE /session. -/
structure ClearResponse where
  status : String
  session_id : String
deriving DecidableEq

/-- clear_session: delete the key when present, always answer "cleared". -/
def clear_session (store : SessionStore) (sid : String) : ClearResponse × SessionStore :=
  let store2 := if (store_lookup store sid).isSome then store_erase store sid else store
  ({ status := "cleared", session_id := sid }, store2)

/-! ### Audio assembly (models/tts.py TTSHandler.synthesize_segments)

Decoded audio buffers are lists of rational samples; the external
synthesize-and-decode step (Piper plus AudioProcessor.bytes_to_audio) is an
abstract function from the stripped segment text and chosen voice to a
sample list. -/

/-- int(22050 * 0.16) samples of silence inserted between segments. -/
def pause_samples : List Rat := List.replicate 3528 0

/-- The merged-chunk loop: a pause before every chunk except the first. -/
def merge_rest : List (List Rat) → List Rat
  | [] => []
  | c :: rest => pause_samples ++ c ++ merge_rest rest

/-- np.concatenate(merged_chunks) for the loop that prepends a pause at every
index greater than zero. -/
def merge_with_pause : List (List Rat) → List Rat
  | [] => []
  | c :: rest => c ++ merge_rest rest

/-- Peak of np.abs(audio). -/
def max_abs (l : List Rat) : Rat := l.foldl (fun m x => max m |x|) 0

/-- AudioProcessor.normalize_audio: scale to the target peak when nonzero. -/
def normalize_audio (l : List Rat) (target : Rat) : List Rat :=
  if 0 < max_abs l then l.map (fun x => x * (target / max_abs l)) else l

/-- Sample count of _generate_fallback_audio:
int(22050 * max(0.5, len(text) * 0.08 * scale)). -/
def fallback_sample_count (text : String) (length_scale : Option Rat) : Nat :=
  let scale : Rat :=
    match length_scale with
    | some s => if 0 < s then s else 1
    | none => 1
  let duration : Rat := max (1/2) ((text.length : Rat) * (8/100) * scale)
  (⌊(22050 : Rat) * duration⌋).toNat

/-- TTSHandler._generate_fallback_audio.  The audible 440 Hz sine waveform of
amplitude 0.15 is modelled by its sample count with a constant amplitude
value, since only the duration (nonemptiness) of the fallback clip is
observable to the properties under verification; the sample count follows
the source formula exactly. -/
def generate_fallback_audio (text : String) (length_scale : Option Rat) : List Rat :=
  List.replicate (fallback_sample_count text length_scale) (3/20)

/-- The per-segment rendering loop of synthesize_segments: strip the text,
skip empty text, choose the voice by language (defaulting to the handler
voice), synthesize-and-decode, and skip zero-length audio. -/
def render_segments (synth : String → String → List Rat) (default_voice : String)
    (voice_for_language : List (String × String)) :
    List SpeechSegment → List (List Rat)
  | [] => []
  | seg :: rest =>
    let segment_text := strip_ends seg.text.data
    if segment_text.isEmpty then render_segments synth default_voice voice_for_language rest
    else
      let chosen_voice :=
        (alist_lookup voice_for_language (lowerStr seg.language)).getD default_voice
      let chunk_audio := synth (str_of_chars segment_text) chosen_voice
      if chunk_audio.isEmpty then render_segments synth default_voice voice_for_language rest
      else chunk_audio :: render_segments synth default_voice voice_for_language rest

/-- TTSHandler.synthesize_segments. -/
def synthesize_segments (synth : String → String → List Rat) (default_voice : String)
    (voice_for_language : List (String × String)) (segments : List SpeechSegment) :
    List Rat :=
  if segments.isEmpty then generate_fallback_audio "" none
  else
    let rendered := render_segments synth default_voice voice_for_language segments
    if rendered.isEmpty then generate_fallback_audio "" none
    else normalize_audio (merge_with_pause rendered) (9/10)

/-! ### Well-formedness predicates used by the proofs -/

/-- Scanner state for recognizing already-cleaned text. -/
inductive CleanState where
  | start
  | afterChar
  | afterWs

/-- The shape of _clean_segment_text output: no leading or trailing
whitespace, and every whitespace character is a single space sitting between
non-whitespace characters. -/
def clean_form : CleanState → List Char → Bool
  | .start, [] => true
  | .afterChar, [] => true
  | .afterWs, [] => false
  | st, c :: rest =>
    if c.isWhitespace then
      match st with
      | .afterChar => c == ' ' && clean_form .afterWs rest
      | _ => false
    else clean_form .afterChar rest

/-- The shape of whitespace-collapsed text: every whitespace character is a
space and no two whitespace characters are adjacent (the flag records
whether the previous character was whitespace). -/
def spaced_ok : Bool → List Char → Bool
  | _, [] => true
  | prevWs, c :: rest =>
    if c.isWhitespace then !prevWs && c == ' ' && spaced_ok true rest
    else spaced_ok false rest

/-! ## Helper lemmas -/

theorem str_of_chars_data (l : List Char) : (str_of_chars l).data = l := rfl

theorem str_of_chars_ne_empty {l : List Char} (h : l ≠ []) : str_of_chars l ≠ "" := by
  intro he
  exact h (congrArg String.data he)

theorem stream_chunk_loop_spec (mk : String → SSEvent) :
    ∀ (cs : List String) (acc : String),
      stream_chunk_loop mk acc cs = (cs.map mk, acc ++ string_concat cs) := by
  intro cs
  induction cs with
  | nil => intro acc; simp [stream_chunk_loop, string_concat]
  | cons c rest ih =>
    intro acc
    simp [stream_chunk_loop, string_concat, ih (acc ++ c), String.append_assoc]

theorem store_lookup_set_self (store : SessionStore) (k : String)
    (v : List ConversationMessage) : store_lookup (store_set store k v) k = some v := by
  induction store with
  | nil => simp [store_set, store_lookup]
  | cons p rest ih =>
    by_cases h : p.1 = k
    · simp [store_set, store_lookup, h]
    · simp [store_set, store_lookup, h, ih]

theorem store_lookup_set_ne (store : SessionStore) (k s : String)
    (v : List ConversationMessage) (h : k ≠ s) :
    store_lookup (store_set store k v) s = store_lookup store s := by
  induction store with
  | nil => simp [store_set, store_lookup, h]
  | cons p rest ih =>
    by_cases hk : p.1 = k
    · subst hk
      simp only [store_set, if_pos rfl, store_lookup, if_neg h]
    · simp [store_set, store_lookup, hk, ih]

theorem store_lookup_erase_self (store : SessionStore) (k : String) :
    store_lookup (store_erase store k) k = none := by
  induction store with
  | nil => simp [store_erase, store_lookup]
  | cons p rest ih =>
    by_cases h : p.1 = k
    · simp [store_erase, h, ih]
    · simp [store_erase, store_lookup, h, ih]

theorem append_and_trim_eq_drop (h : List ConversationMessage)
    (u a : ConversationMessage) :
    append_and_trim h u a = (h ++ [u, a]).drop ((h.length + 2) - 20) := by
  unfold append_and_trim
  by_cases hl : 20 < (h ++ [u, a]).length
  · simp only [if_pos hl]
    have : (h ++ [u, a]).length = h.length + 2 := by simp
    rw [this]
  · simp only [if_neg hl]
    have hlen : (h ++ [u, a]).length = h.length + 2 := by simp
    have : (h.length + 2) - 20 = 0 := by omega
    rw [this, List.drop_zero]

theorem flat_pairs_length (pairs : List (ConversationMessage × ConversationMessage)) :
    (pairs.flatMap (fun p => [p.1, p.2])).length = 2 * pairs.length := by
  induction pairs with
  | nil => simp
  | cons p rest ih => simp [ih]; omega

theorem run_turns_general (pairs : List (ConversationMessage × ConversationMessage)) :
    ∀ h : List ConversationMessage, h.length ≤ 20 →
      pairs.foldl (fun acc p => append_and_trim acc p.1 p.2) h =
        (h ++ pairs.flatMap (fun p => [p.1, p.2])).drop
          ((h.length + 2 * pairs.length) - 20) := by
  induction pairs with
  | nil =>
    intro h hh
    have : h.length - 20 = 0 := by omega
    simp [this]
  | cons p rest ih =>
    intro h hh
    have hstep : append_and_trim h p.1 p.2 = (h ++ [p.1, p.2]).drop ((h.length + 2) - 20) :=
      append_and_trim_eq_drop h p.1 p.2
    have hlen2 : (append_and_trim h p.1 p.2).length = (h.length + 2) - ((h.length + 2) - 20) := by
      rw [hstep, List.length_drop]
      simp
    have hle : (append_and_trim h p.1 p.2).length ≤ 20 := by omega
    rw [List.foldl_cons, ih _ hle, hlen2, hstep]
    have hk : (h.length + 2) - 20 ≤ (h ++ [p.1, p.2]).length := by simp; omega
    rw [← List.drop_append_of_le_length hk, List.drop_drop, List.flatMap_cons,
      ← List.append_assoc]
    congr 1
    simp only [List.length_cons]
    omega

theorem collapse_spaced (l : List Char) :
    ∀ b, spaced_ok b (collapse_ws_aux b l) = true := by
  induction l with
  | nil => intro b; rfl
  | cons c rest ih =>
    intro b
    by_cases hc : c.isWhitespace = true
    · cases b with
      | true => simpa [collapse_ws_aux, hc] using ih true
      | false =>
        have hsp : (' ' : Char).isWhitespace = true := rfl
        simp [collapse_ws_aux, hc, spaced_ok, hsp, ih true]
    · have hcf : c.isWhitespace = false := by simpa using hc
      simp [collapse_ws_aux, hcf, spaced_ok, ih false]

theorem spaced_drop_trail (l : List Char) :
    (spaced_ok false l = true → clean_form .afterChar (drop_trail_ws l) = true)
    ∧ (spaced_ok true l = true →
        clean_form .start (drop_trail_ws l) = true
        ∧ (drop_trail_ws l ≠ [] → clean_form .afterWs (drop_trail_ws l) = true)) := by
  induction l with
  | nil => exact ⟨fun _ => rfl, fun _ => ⟨rfl, fun h => absurd rfl h⟩⟩
  | cons c rest ih =>
    constructor
    · intro hsp
      by_cases hc : c.isWhitespace = true
      · have hparts : (c == ' ') = true ∧ spaced_ok true rest = true := by
          simpa [spaced_ok, hc] using hsp
        have hceq : c = ' ' := by simpa using hparts.1
        by_cases hd : (drop_trail_ws rest).isEmpty = true
        · simp [drop_trail_ws, hd, hc, clean_form]
        · have hne : drop_trail_ws rest ≠ [] := by
            simpa [List.isEmpty_iff] using hd
          have h2 := (ih.2 hparts.2).2 hne
          have hdf : (drop_trail_ws rest).isEmpty = false := by simpa using hd
          simp [drop_trail_ws, hdf, hc, clean_form, hceq, h2]
      · have hcf : c.isWhitespace = false := by simpa using hc
        have hsp2 : spaced_ok false rest = true := by simpa [spaced_ok, hcf] using hsp
        have h1 := ih.1 hsp2
        simp [drop_trail_ws, hcf, clean_form, h1]
    · intro hsp
      by_cases hc : c.isWhitespace = true
      · simp [spaced_ok, hc] at hsp
      · have hcf : c.isWhitespace = false := by simpa using hc
        have hsp2 : spaced_ok false rest = true := by simpa [spaced_ok, hcf] using hsp
        have h1 := ih.1 hsp2
        constructor
        · simp [drop_trail_ws, hcf, clean_form, h1]
        · intro _
          simp [drop_trail_ws, hcf, clean_form, h1]

theorem clean_form_fixes (l : List Char) :
    (clean_form .start l = true →
      collapse_ws_aux false l = l ∧ drop_trail_ws l = l ∧ l.dropWhile Char.isWhitespace = l)
    ∧ (clean_form .afterChar l = true →
      collapse_ws_aux false l = l ∧ drop_trail_ws l = l)
    ∧ (clean_form .afterWs l = true →
      l ≠ [] ∧ collapse_ws_aux true l = l ∧ drop_trail_ws l = l) := by
  induction l with
  | nil =>
    refine ⟨fun _ => ⟨rfl, rfl, rfl⟩, fun _ => ⟨rfl, rfl⟩, fun h => ?_⟩
    simp [clean_form] at h
  | cons c rest ih =>
    refine ⟨?_, ?_, ?_⟩
    · intro hcf
      by_cases hc : c.isWhitespace = true
      · simp [clean_form, hc] at hcf
      · have hcw : c.isWhitespace = false := by simpa using hc
        have h2 : clean_form .afterChar rest = true := by
          simpa [clean_form, hcw] using hcf
        obtain ⟨hco, hdt⟩ := ih.2.1 h2
        refine ⟨?_, ?_, ?_⟩
        · simp [collapse_ws_aux, hcw, hco]
        · simp [drop_trail_ws, hdt, hcw]
        · simp [List.dropWhile_cons, hcw]
    · intro hcf
      by_cases hc : c.isWhitespace = true
      · have hparts : (c == ' ') = true ∧ clean_form .afterWs rest = true := by
          simpa [clean_form, hc] using hcf
        obtain ⟨hne, hco, hdt⟩ := ih.2.2 hparts.2
        have hceq : c = ' ' := by simpa using hparts.1
        refine ⟨?_, ?_⟩
        · simp [collapse_ws_aux, hc, hceq, hco]
        · have hdne : (drop_trail_ws rest).isEmpty = false := by
            rw [hdt]
            cases rest with
            | nil => exact absurd rfl hne
            | cons d rest2 => rfl
          simp [drop_trail_ws, hdne, hdt]
          exact fun h => absurd h hne
      · have hcw : c.isWhitespace = false := by simpa using hc
        have h2 : clean_form .afterChar rest = true := by
          simpa [clean_form, hcw] using hcf
        obtain ⟨hco, hdt⟩ := ih.2.1 h2
        refine ⟨?_, ?_⟩
        · simp [collapse_ws_aux, hcw, hco]
        · simp [drop_trail_ws, hdt, hcw]
    · intro hcf
      by_cases hc : c.isWhitespace = true
      · simp [clean_form, hc] at hcf
      · have hcw : c.isWhitespace = false := by simpa using hc
        have h2 : clean_form .afterChar rest = true := by
          simpa [clean_form, hcw] using hcf
        obtain ⟨hco, hdt⟩ := ih.2.1 h2
        refine ⟨by simp, ?_, ?_⟩
        · simp [collapse_ws_aux, hcw, hco]
        · simp [drop_trail_ws, hdt, hcw]

theorem spaced_true_dropWhile {l : List Char} (h : spaced_ok true l = true) :
    l.dropWhile Char.isWhitespace = l := by
  cases l with
  | nil => rfl
  | cons c rest =>
    by_cases hc : c.isWhitespace = true
    · simp [spaced_ok, hc] at h
    · have hcf : c.isWhitespace = false := by simpa using hc
      simp [List.dropWhile_cons, hcf]

theorem clean_list_clean_form (l : List Char) :
    clean_form .start (clean_list l) = true := by
  have hsp := collapse_spaced l false
  unfold clean_list strip_ends
  cases hm : collapse_ws_aux false l with
  | nil => rfl
  | cons c rest =>
    rw [hm] at hsp
    by_cases hc : c.isWhitespace = true
    · have hparts : (c == ' ') = true ∧ spaced_ok true rest = true := by
        simpa [spaced_ok, hc] using hsp
      rw [List.dropWhile_cons, if_pos hc, spaced_true_dropWhile hparts.2]
      exact ((spaced_drop_trail rest).2 hparts.2).1
    · have hcf : c.isWhitespace = false := by simpa using hc
      have hsp2 : spaced_ok false rest = true := by simpa [spaced_ok, hcf] using hsp
      have h1 := (spaced_drop_trail rest).1 hsp2
      simp [List.dropWhile_cons, hcf, drop_trail_ws, clean_form, h1]

theorem clean_list_idem (l : List Char) : clean_list (clean_list l) = clean_list l := by
  have hcf := clean_list_clean_form l
  obtain ⟨hco, hdt, hdw⟩ := (clean_form_fixes (clean_list l)).1 hcf
  show strip_ends (collapse_ws_aux false (clean_list l)) = clean_list l
  rw [hco]
  unfold strip_ends
  rw [hdw, hdt]

theorem strip_of_fixed (y : String) (h : remove_tag_markers y.data = y.data)
    (hcl : clean_list y.data = y.data) : strip_speech_tags y = y := by
  by_cases hy : y = ""
  · subst hy; rfl
  · unfold strip_speech_tags
    rw [if_neg hy, h, hcl]
    cases y
    rfl

theorem strip_data_clean (x : String) :
    clean_list (strip_speech_tags x).data = (strip_speech_tags x).data := by
  by_cases hx : x = ""
  · rw [hx]; rfl
  · have hd : (strip_speech_tags x).data = clean_list (remove_tag_markers x.data) := by
      simp [strip_speech_tags, hx, str_of_chars]
    rw [hd, clean_list_idem]

/-! ## Claim theorems -/

/-- Claim C3, counterexample: strip_speech_tags is not idempotent on every
input.  Removing the markers of the input below produces a fresh marker
(the bracket text around the removed tag closes up into one), which a second
pass removes, so the first and second strips disagree. -/
theorem strip_tags_idempotence_counterexample :
    strip_speech_tags (strip_speech_tags "[E[EN]N]") ≠ strip_speech_tags "[E[EN]N]" := by
  decide

/-- Claim C3, amended: strip_speech_tags is idempotent on every input whose
stripped output contains no residual tag marker (i.e. marker removal leaves
the stripped output unchanged).  On bracket text where removing a marker
creates a new one the original universal claim fails, as witnessed by the
counterexample. -/
theorem strip_tags_idempotent_no_residual (x : String)
    (h : remove_tag_markers (strip_speech_tags x).data = (strip_speech_tags x).data) :
    strip_speech_tags (strip_speech_tags x) = strip_speech_tags x :=
  strip_of_fixed (strip_speech_tags x) h (strip_data_clean x)

theorem strip_tags_idempotent_no_residual_witness :
    remove_tag_markers (strip_speech_tags "[EN]Hi[/EN] there").data
        = (strip_speech_tags "[EN]Hi[/EN] there").data
    ∧ strip_speech_tags (strip_speech_tags "[EN]Hi[/EN] there")
        = strip_speech_tags "[EN]Hi[/EN] there" :=
  ⟨by decide, strip_tags_idempotent_no_residual "[EN]Hi[/EN] there" (by decide)⟩

theorem gen_defaults_cases (lvl : String) :
    gen_defaults lvl = ⟨220, 45/100, 85/100⟩ ∨ gen_defaults lvl = ⟨240, 55/100, 90/100⟩ ∨
      gen_defaults lvl = ⟨256, 65/100, 92/100⟩ := by
  unfold gen_defaults
  split_ifs <;>
    first
      | exact Or.inl rfl
      | exact Or.inr (Or.inl rfl)
      | exact Or.inr (Or.inr rfl)

theorem get_generation_settings_light (d : String) :
    get_generation_settings d "light" =
      { gen_defaults (lowerStr d) with
        max_tokens := max 140 ((gen_defaults (lowerStr d)).max_tokens - 60),
        temperature := max (35/100) ((gen_defaults (lowerStr d)).temperature - 8/100) } := by
  have h : normalize_teaching_intensity (some "light") = "light" := by decide
  simp [get_generation_settings, h]

theorem get_generation_settings_standard (d : String) :
    get_generation_settings d "standard" = gen_defaults (lowerStr d) := by
  have h : normalize_teaching_intensity (some "standard") = "standard" := by decide
  simp only [get_generation_settings, h]
  rw [if_neg (by decide : ¬("standard" : String) = "light"),
    if_neg (by decide : ¬("standard" : String) = "deep")]

theorem get_generation_settings_deep (d : String) :
    get_generation_settings d "deep" =
      { gen_defaults (lowerStr d) with
        max_tokens := min 340 ((gen_defaults (lowerStr d)).max_tokens + 80),
        temperature := min (72/100) ((gen_defaults (lowerStr d)).temperature + 5/100) } := by
  have h : normalize_teaching_intensity (some "deep") = "deep" := by decide
  simp only [get_generation_settings, h]
  rw [if_neg (by decide : ¬("deep" : String) = "light")]
  simp

/-- Claim C7: for beginner difficulty, light intensity yields strictly fewer
max tokens than standard and a temperature no larger than standard; for
every difficulty string, the light adjustment subtracts but never goes below
140 tokens or temperature 0.35, and the deep adjustment adds but never
exceeds 340 tokens or temperature 0.72. -/
theorem generation_settings_intensity_bounds :
    (get_generation_settings "beginner" "light").max_tokens
        < (get_generation_settings "beginner" "standard").max_tokens
    ∧ (get_generation_settings "beginner" "light").temperature
        ≤ (get_generation_settings "beginner" "standard").temperature
    ∧ (∀ d : String,
        140 ≤ (get_generation_settings d "light").max_tokens
        ∧ 35/100 ≤ (get_generation_settings d "light").temperature
        ∧ (get_generation_settings d "light").max_tokens
            ≤ (get_generation_settings d "standard").max_tokens
        ∧ (get_generation_settings d "light").temperature
            ≤ (get_generation_settings d "standard").temperature
        ∧ (get_generation_settings d "deep").max_tokens ≤ 340
        ∧ (get_generation_settings d "deep").temperature ≤ 72/100
        ∧ (get_generation_settings d "standard").max_tokens
            ≤ (get_generation_settings d "deep").max_tokens
        ∧ (get_generation_settings d "standard").temperature
            ≤ (get_generation_settings d "deep").temperature) := by
  refine ⟨?_, ?_, ?_⟩
  · rw [get_generation_settings_light, get_generation_settings_standard]
    rcases gen_defaults_cases (lowerStr "beginner") with h | h | h <;> rw [h] <;> norm_num
  · rw [get_generation_settings_light, get_generation_settings_standard]
    rcases gen_defaults_cases (lowerStr "beginner") with h | h | h <;> rw [h] <;> norm_num
  · intro d
    rw [get_generation_settings_light, get_generation_settings_standard,
      get_generation_settings_deep]
    rcases gen_defaults_cases (lowerStr d) with h | h | h <;> rw [h] <;>
      refine ⟨by norm_num, by norm_num, by norm_num, by norm_num, by norm_num,
        by norm_num, by norm_num, by norm_num⟩

/-- Claim C6: get_tts_voice is a total deterministic selection policy — an
explicit in-catalog voice id wins; otherwise the first voice whose gender
metadata matches the normalized style is chosen, else the language's first
listed voice; a language absent from the catalog always yields the single
global fallback voice; unrecognized or missing styles normalize to female. -/
theorem voice_resolution_policy :
    (∀ lang p style, p ≠ "" → p ∈ voices_for lang →
        get_tts_voice lang (some p) style = p)
    ∧ (∀ lang pref style, voices_for lang = [] →
        get_tts_voice lang pref style = DEFAULT_TTS_FALLBACK_VOICE)
    ∧ (∀ lang style v vs, voices_for lang = v :: vs →
        get_tts_voice lang none style =
          style_scan (v :: vs) v (normalize_voice_style style))
    ∧ (∀ lang style p v vs, voices_for lang = v :: vs → p ∉ (v :: vs) →
        get_tts_voice lang (some p) style =
          style_scan (v :: vs) v (normalize_voice_style style))
    ∧ (∀ voices first normalized w,
        voices.find? (fun u => get_voice_gender u == normalized) = some w →
        style_scan voices first normalized = w)
    ∧ (∀ voices first normalized,
        voices.find? (fun u => get_voice_gender u == normalized) = none →
        style_scan voices first normalized = first)
    ∧ normalize_voice_style none = "female"
    ∧ (∀ s, lowerStr s ∉ VOICE_STYLE_OPTIONS → normalize_voice_style (some s) = "female") := by
  refine ⟨?_, ?_, ?_, ?_, ?_, ?_, by decide, ?_⟩
  · intro lang p style hp hmem
    rcases hv : voices_for lang with _ | ⟨v, vs⟩
    · rw [hv] at hmem
      simp at hmem
    · rw [hv] at hmem
      have hcont : (v :: vs).contains p = true := List.elem_eq_true_of_mem hmem
      have hhit : explicit_preference_hit (some p) (v :: vs) = true := by
        show (if p = "" then false else (v :: vs).contains p) = true
        rw [if_neg hp]
        exact hcont
      unfold get_tts_voice
      rw [hv]
      show (if explicit_preference_hit (some p) (v :: vs) = true then (some p).getD ""
            else style_scan (v :: vs) v (normalize_voice_style style)) = p
      rw [if_pos hhit]
      rfl
  · intro lang pref style hv
    unfold get_tts_voice
    rw [hv]
  · intro lang style v vs hv
    unfold get_tts_voice
    rw [hv]
    rfl
  · intro lang style p v vs hv hmem
    have hcont : (v :: vs).contains p = false := by
      cases hcb : (v :: vs).contains p with
      | false => rfl
      | true => exact absurd (List.mem_of_elem_eq_true hcb) hmem
    have hhit : explicit_preference_hit (some p) (v :: vs) = false := by
      show (if p = "" then false else (v :: vs).contains p) = false
      by_cases hp : p = ""
      · rw [if_pos hp]
      · rw [if_neg hp, hcont]
    unfold get_tts_voice
    rw [hv]
    show (if explicit_preference_hit (some p) (v :: vs) = true then (some p).getD ""
          else style_scan (v :: vs) v (normalize_voice_style style))
        = style_scan (v :: vs) v (normalize_voice_style style)
    rw [hhit]
    simp
  · intro voices first normalized w h
    unfold style_scan
    rw [h]
  · intro voices first normalized h
    unfold style_scan
    rw [h]
  · intro s hs
    by_cases hse : s = ""
    · subst hse; decide
    · simp [normalize_voice_style, hse, hs]

theorem voice_resolution_policy_witness :
    get_tts_voice "es" (some "es_ES-davefx-medium") none = "es_ES-davefx-medium"
    ∧ get_tts_voice "xx" none none = DEFAULT_TTS_FALLBACK_VOICE
    ∧ normalize_voice_style (some "ROBOT") = "female" :=
  ⟨voice_resolution_policy.1 "es" "es_ES-davefx-medium" none (by decide) (by decide),
   voice_resolution_policy.2.1 "xx" none none (by decide),
   voice_resolution_policy.2.2.2.2.2.2.2 "ROBOT" (by decide)⟩

/-- Claim C10: reading an absent session returns an empty message list with
the store untouched (no lazy creation); clearing answers "cleared" for every
id, clearing is idempotent, and a clear followed by a read yields an empty
message list. -/
theorem session_read_clear_semantics :
    (∀ (store : SessionStore) (sid : String), store_lookup store sid = none →
        get_session_history store sid = ({ session_id := none, messages := [] }, store))
    ∧ (∀ (store : SessionStore) (sid : String),
        (clear_session store sid).1 = { status := "cleared", session_id := sid })
    ∧ (∀ (store : SessionStore) (sid : String),
        (clear_session (clear_session store sid).2 sid).2 = (clear_session store sid).2)
    ∧ (∀ (store : SessionStore) (sid : String),
        (get_session_history (clear_session store sid).2 sid).1.messages = []) := by
  refine ⟨?_, ?_, ?_, ?_⟩
  · intro store sid h
    unfold get_session_history
    rw [h]
  · intro store sid
    rfl
  · intro store sid
    unfold clear_session
    by_cases h : (store_lookup store sid).isSome = true
    · simp [h, store_lookup_erase_self]
    · simp [h]
  · intro store sid
    unfold clear_session get_session_history
    by_cases h : (store_lookup store sid).isSome = true
    · simp [h, store_lookup_erase_self]
    · have hnone : store_lookup store sid = none := by
        cases hl : store_lookup store sid with
        | none => rfl
        | some v => rw [hl] at h; simp at h
      simp [h, hnone]

theorem session_read_clear_semantics_witness :
    get_session_history ([] : SessionStore) "missing"
      = ({ session_id := none, messages := [] }, ([] : SessionStore)) :=
  session_read_clear_semantics.1 [] "missing" rfl

/-- Claim C2: for any sequence of N completed turns appended to one session,
the stored history after each turn has length min(2N, 20) and consists of
exactly the most recently appended messages (oldest dropped first); and a
successful streaming turn updates the resolved session entry with exactly
this append-and-trim of one user message followed by one assistant message. -/
theorem session_trimming_min_bound :
    (∀ pairs : List (ConversationMessage × ConversationMessage),
        (run_turns pairs).length = min (2 * pairs.length) 20
        ∧ run_turns pairs =
            (pairs.flatMap (fun p => [p.1, p.2])).drop (2 * pairs.length - 20))
    ∧ (∀ (store : SessionStore) (session_id : Option String)
          (text dl : String) (chunks : List String) (lang : String),
        text.data.all Char.isWhitespace = false →
        store_lookup
            (speak_stream_run store session_id none (.ok text dl) (.ok chunks) lang).2
            (resolve_session_id session_id) =
          some (append_and_trim
            ((store_lookup store (resolve_session_id session_id)).getD [])
            ⟨"user", text, some dl⟩
            ⟨"assistant",
              (prepare_speech_response (string_concat chunks) lang).response,
              some lang⟩)) := by
  constructor
  · intro pairs
    have hgen := run_turns_general pairs [] (by simp)
    have hc : run_turns pairs =
        (pairs.flatMap (fun p => [p.1, p.2])).drop (2 * pairs.length - 20) := by
      unfold run_turns
      rw [hgen]
      simp
    refine ⟨?_, hc⟩
    rw [hc, List.length_drop, flat_pairs_length]
    omega
  · intro store session_id text dl chunks lang h
    have hr := stream_chunk_loop_spec SSEvent.responseChunk chunks ""
    simp only [speak_stream_run, h, Bool.false_eq_true, if_false, hr,
      String.empty_append, store_lookup_set_self]
    cases hls : store_lookup store (resolve_session_id session_id) with
    | none => simp [hls, store_lookup_set_self]
    | some v => simp [hls]

theorem session_trimming_min_bound_witness :
    store_lookup
        (speak_stream_run [] (some "s1") none (.ok "Hi" "en")
          (.ok ["[EN]Hello[/EN]"]) "es").2
        (resolve_session_id (some "s1")) =
      some (append_and_trim
        ((store_lookup ([] : SessionStore) (resolve_session_id (some "s1"))).getD [])
        ⟨"user", "Hi", some "en"⟩
        ⟨"assistant",
          (prepare_speech_response (string_concat ["[EN]Hello[/EN]"]) "es").response,
          some "es"⟩) :=
  session_trimming_min_bound.2 [] (some "s1") "Hi" "en" ["[EN]Hello[/EN]"] "es" (by decide)

theorem map_name_responseChunk (chunks : List String) :
    chunks.map (SSEvent.name ∘ SSEvent.responseChunk)
      = List.replicate chunks.length "response_chunk" := by
  induction chunks with
  | nil => rfl
  | cons c rest ih => simp_all [SSEvent.name, List.replicate_succ]

theorem map_name_chunk (chunks : List String) :
    chunks.map (SSEvent.name ∘ SSEvent.chunk)
      = List.replicate chunks.length "chunk" := by
  induction chunks with
  | nil => rfl
  | cons c rest ih => simp_all [SSEvent.name, List.replicate_succ]

theorem filterMap_payload_responseChunk (chunks : List String) :
    chunks.filterMap (chunk_payload ∘ SSEvent.responseChunk) = chunks := by
  induction chunks with
  | nil => rfl
  | cons c rest ih => simp_all [chunk_payload]

theorem filterMap_payload_chunk (chunks : List String) :
    chunks.filterMap (chunk_payload ∘ SSEvent.chunk) = chunks := by
  induction chunks with
  | nil => rfl
  | cons c rest ih => simp_all [chunk_payload]

/-- Claim C1, counterexample: on the text path /text-stream the chunk events
are named "chunk" and no response_start event is emitted, so the claimed
sequence start, response_start, response_chunk-star, complete is violated at
this concrete successful request. -/
theorem text_stream_event_names_counterexample :
    (text_stream_events (some (.ok ["Hola"])) "es").map SSEvent.name
        = ["start", "chunk", "complete"]
    ∧ "response_start" ∉ (text_stream_events (some (.ok ["Hola"])) "es").map SSEvent.name
    ∧ "response_chunk" ∉ (text_stream_events (some (.ok ["Hola"])) "es").map SSEvent.name := by
  decide

/-- Claim C1, amended: for every successful streaming request, the audio path
/speak-stream yields exactly start, transcription, response_start, then one
response_chunk per engine chunk, then complete; the text path /text-stream
yields exactly start, then one event named chunk per engine chunk (with no
response_start event), then complete; on both paths the sequence of chunk
payloads in yield order equals the engine chunk sequence in emission order
(hence so do their concatenations). -/
theorem streaming_event_order_amended :
    (∀ (store : SessionStore) (session_id : Option String)
        (text dl : String) (chunks : List String) (lang : String),
      text.data.all Char.isWhitespace = false →
      ((speak_stream_run store session_id none (.ok text dl) (.ok chunks) lang).1.map
          SSEvent.name
        = "start" :: "transcription" :: "response_start"
            :: chunks.map (fun _ => "response_chunk") ++ ["complete"])
      ∧ (speak_stream_run store session_id none (.ok text dl)
          (.ok chunks) lang).1.filterMap chunk_payload = chunks)
    ∧ (∀ (chunks : List String) (lang : String),
      ((text_stream_events (some (.ok chunks)) lang).map SSEvent.name
        = "start" :: chunks.map (fun _ => "chunk") ++ ["complete"])
      ∧ (text_stream_events (some (.ok chunks)) lang).filterMap chunk_payload
          = chunks) := by
  constructor
  · intro store session_id text dl chunks lang h
    have hr := stream_chunk_loop_spec SSEvent.responseChunk chunks ""
    simp only [speak_stream_run, h, Bool.false_eq_true, if_false, hr]
    constructor
    · simp [SSEvent.name, map_name_responseChunk]
    · simp [chunk_payload, filterMap_payload_responseChunk]
  · intro chunks lang
    have hr := stream_chunk_loop_spec SSEvent.chunk chunks ""
    simp only [text_stream_events, hr]
    constructor
    · simp [SSEvent.name, map_name_chunk]
    · simp [chunk_payload, filterMap_payload_chunk]

theorem streaming_event_order_amended_witness :
    ((speak_stream_run [] none none (.ok "Hi" "en") (.ok ["Ho", "la"]) "es").1.map
        SSEvent.name
      = "start" :: "transcription" :: "response_start"
          :: (["Ho", "la"].map (fun _ => "response_chunk")) ++ ["complete"])
    ∧ (speak_stream_run [] none none (.ok "Hi" "en")
        (.ok ["Ho", "la"]) "es").1.filterMap chunk_payload = ["Ho", "la"] :=
  streaming_event_order_amended.1 [] none "Hi" "en" ["Ho", "la"] "es" (by decide)

/-- Claim C8: when the transcribed text is empty or whitespace-only the
audio stream emits start then a single error event carrying the no-speech
message and terminates, leaving the session store literally unchanged; and
every error-terminated stream (missing handler, STT exception, or LLM
exception mid-stream) appends no message to any session: the message list
of every session id is the same before and after. -/
theorem error_stream_no_history_mutation :
    (∀ (store : SessionStore) (session_id : Option String) (llm : LlmStreamResult)
        (text dl lang : String),
      text.data.all Char.isWhitespace = true →
      speak_stream_run store session_id none (.ok text dl) llm lang
        = ([SSEvent.start "transcribing", SSEvent.errorEvent no_speech_message], store))
    ∧ (∀ (store : SessionStore) (session_id : Option String) (msg : String)
        (stt : SttResult) (llm : LlmStreamResult) (lang : String),
      speak_stream_run store session_id (some msg) stt llm lang
        = ([SSEvent.errorEvent msg], store))
    ∧ (∀ (store : SessionStore) (session_id : Option String) (msg lang : String)
        (llm : LlmStreamResult),
      speak_stream_run store session_id none (.fail msg) llm lang
        = ([SSEvent.start "transcribing", SSEvent.errorEvent msg], store))
    ∧ (∀ (store : SessionStore) (session_id : Option String)
        (text dl : String) (chunks : List String) (msg lang s : String),
      text.data.all Char.isWhitespace = false →
      ((speak_stream_run store session_id none (.ok text dl)
          (.failAfter chunks msg) lang).1
        = SSEvent.start "transcribing" :: SSEvent.transcription text dl
            :: SSEvent.responseStart "generating" :: chunks.map SSEvent.responseChunk
            ++ [SSEvent.errorEvent msg])
      ∧ (store_lookup (speak_stream_run store session_id none (.ok text dl)
            (.failAfter chunks msg) lang).2 s).getD []
          = (store_lookup store s).getD []) := by
  refine ⟨?_, ?_, ?_, ?_⟩
  · intro store session_id llm text dl lang h
    simp [speak_stream_run, h]
  · intro store session_id msg stt llm lang
    rfl
  · intro store session_id msg lang llm
    rfl
  · intro store session_id text dl chunks msg lang s h
    have hr := stream_chunk_loop_spec SSEvent.responseChunk chunks ""
    simp only [speak_stream_run, h, Bool.false_eq_true, if_false, hr]
    refine ⟨trivial, ?_⟩
    cases hls : store_lookup store (resolve_session_id session_id) with
    | none =>
      by_cases hss : s = resolve_session_id session_id
      · subst hss
        simp [hls, store_lookup_set_self]
      · simp [hls, store_lookup_set_ne store (resolve_session_id session_id) s []
          (Ne.symm hss)]
    | some v => simp [hls]

theorem error_stream_no_history_mutation_witness :
    speak_stream_run [("s1", [])] (some "s1") none (.ok "   " "en") (.ok []) "es"
      = ([SSEvent.start "transcribing", SSEvent.errorEvent no_speech_message],
         [("s1", [])]) :=
  error_stream_no_history_mutation.1 [("s1", [])] (some "s1") (.ok []) "   " "en" "es"
    (by decide)

theorem clean_segment_text_of_cleaned (l : List Char) :
    clean_segment_text (str_of_chars (clean_list l)) = str_of_chars (clean_list l) := by
  unfold clean_segment_text
  rw [str_of_chars_data, clean_list_idem]

theorem split_speech_segments_no_match (text t e : String) (h : text ≠ "")
    (hf : find_first_match text.data = none) :
    split_speech_segments text t e =
      (if (clean_list text.data).isEmpty then []
       else [⟨str_of_chars (clean_list text.data),
             guessed_language (lowerStr t) (lowerStr e) (clean_list text.data)⟩]) := by
  unfold split_speech_segments
  rw [if_neg h, hf]

theorem split_speech_segments_match (text t e : String) (h : text ≠ "")
    (m : List Char × SpeechTag × List Char × List Char)
    (hf : find_first_match text.data = some m) :
    split_speech_segments text t e =
      (tokenize_tags text.data).flatMap
        (token_segments (lowerStr t) (lowerStr e)) := by
  unfold split_speech_segments
  rw [if_neg h, hf]

theorem guessed_language_eq (tL eL : String) (c : List Char) :
    guessed_language tL eL c =
      if tL ≠ eL ∧ max 2 ((english_words c).length / 3) ≤ english_hint_hits c
      then eL else tL := by
  by_cases hw : (english_words c).isEmpty = true
  · have hwe : english_words c = [] := by simpa [List.isEmpty_iff] using hw
    simp [guessed_language, looks_like_english, hw, english_hint_hits, hwe]
  · have hwf : (english_words c).isEmpty = false := by simpa using hw
    simp [guessed_language, looks_like_english, hwf, ge_iff_le]

/-- Claim C4: tagged segmentation maps EN spans to the explanation language
and TL spans to the target language, collapses and trims each span, drops
spans that clean to empty without disturbing the order of the rest, and
preserves encounter order; in particular the round-trip example of the spec
holds exactly, and every emitted segment has nonempty, already-cleaned text
labelled with one of the two languages. -/
theorem tagged_segmentation_correct :
    split_speech_segments "[EN]Hello[/EN] [TL]Hola[/TL]" "es" "en"
        = [⟨"Hello", "en"⟩, ⟨"Hola", "es"⟩]
    ∧ split_speech_segments "[EN]   [/EN][TL]Hola[/TL][EN]Hi[/EN]" "es" "en"
        = [⟨"Hola", "es"⟩, ⟨"Hi", "en"⟩]
    ∧ (∀ (targetL explL : String) (pre post : List TagToken)
        (tg : SpeechTag) (content : List Char), clean_list content ≠ [] →
        (pre ++ TagToken.tagged tg content :: post).flatMap
            (token_segments targetL explL)
          = pre.flatMap (token_segments targetL explL)
            ++ ⟨str_of_chars (clean_list content),
                if tg = SpeechTag.EN then explL else targetL⟩
              :: post.flatMap (token_segments targetL explL))
    ∧ (∀ (targetL explL : String) (pre post : List TagToken)
        (tg : SpeechTag) (content : List Char), clean_list content = [] →
        (pre ++ TagToken.tagged tg content :: post).flatMap
            (token_segments targetL explL)
          = pre.flatMap (token_segments targetL explL)
            ++ post.flatMap (token_segments targetL explL))
    ∧ (∀ (text t e : String), ∀ seg ∈ split_speech_segments text t e,
        seg.text ≠ "" ∧ clean_segment_text seg.text = seg.text
        ∧ (seg.language = lowerStr t ∨ seg.language = lowerStr e)) := by
  refine ⟨by decide, by decide, ?_, ?_, ?_⟩
  · intro targetL explL pre post tg content h
    have hb : (clean_list content).isEmpty = false := by simpa [List.isEmpty_iff] using h
    simp [List.flatMap_append, List.flatMap_cons, token_segments, hb]
  · intro targetL explL pre post tg content h
    have hb : (clean_list content).isEmpty = true := by simp [List.isEmpty_iff, h]
    simp [List.flatMap_append, List.flatMap_cons, token_segments, hb]
  · intro text t e seg hmem
    by_cases ht : text = ""
    · rw [ht] at hmem
      simp [split_speech_segments] at hmem
    · cases hf : find_first_match text.data with
      | none =>
        rw [split_speech_segments_no_match text t e ht hf] at hmem
        by_cases hcl : (clean_list text.data).isEmpty = true
        · simp [hcl] at hmem
        · have hclf : (clean_list text.data).isEmpty = false := by simpa using hcl
          rw [if_neg (by simp [hclf])] at hmem
          rw [List.mem_singleton] at hmem
          subst hmem
          refine ⟨str_of_chars_ne_empty (by simpa [List.isEmpty_iff] using hclf),
            clean_segment_text_of_cleaned text.data, ?_⟩
          unfold guessed_language
          by_cases hg : lowerStr t ≠ lowerStr e
              ∧ looks_like_english (clean_list text.data) = true
          · rw [if_pos hg]
            exact Or.inr rfl
          · rw [if_neg hg]
            exact Or.inl rfl
      | some m =>
        rw [split_speech_segments_match text t e ht m hf] at hmem
        rw [List.mem_flatMap] at hmem
        obtain ⟨tok, _, hseg⟩ := hmem
        cases tok with
        | gap g =>
          by_cases hcl : (clean_list g).isEmpty = true
          · simp [token_segments, hcl] at hseg
          · have hclf : (clean_list g).isEmpty = false := by simpa using hcl
            rw [show token_segments (lowerStr t) (lowerStr e) (TagToken.gap g)
                = [⟨str_of_chars (clean_list g),
                    guessed_language (lowerStr t) (lowerStr e) (clean_list g)⟩] from by
              simp [token_segments, hclf]] at hseg
            rw [List.mem_singleton] at hseg
            subst hseg
            refine ⟨str_of_chars_ne_empty (by simpa [List.isEmpty_iff] using hclf),
              clean_segment_text_of_cleaned g, ?_⟩
            unfold guessed_language
            by_cases hg : lowerStr t ≠ lowerStr e
                ∧ looks_like_english (clean_list g) = true
            · rw [if_pos hg]
              exact Or.inr rfl
            · rw [if_neg hg]
              exact Or.inl rfl
        | tagged tg content =>
          by_cases hcl : (clean_list content).isEmpty = true
          · simp [token_segments, hcl] at hseg
          · have hclf : (clean_list content).isEmpty = false := by simpa using hcl
            rw [show token_segments (lowerStr t) (lowerStr e) (TagToken.tagged tg content)
                = [⟨str_of_chars (clean_list content),
                    if tg = SpeechTag.EN then lowerStr e else lowerStr t⟩] from by
              simp [token_segments, hclf]] at hseg
            rw [List.mem_singleton] at hseg
            subst hseg
            refine ⟨str_of_chars_ne_empty (by simpa [List.isEmpty_iff] using hclf),
              clean_segment_text_of_cleaned content, ?_⟩
            by_cases htg : tg = SpeechTag.EN
            · rw [if_pos htg]
              exact Or.inr rfl
            · rw [if_neg htg]
              exact Or.inl rfl

theorem tagged_segmentation_correct_witness :
    (⟨"Hello", "en"⟩ : SpeechSegment).text ≠ ""
    ∧ clean_segment_text (⟨"Hello", "en"⟩ : SpeechSegment).text
        = (⟨"Hello", "en"⟩ : SpeechSegment).text
    ∧ ((⟨"Hello", "en"⟩ : SpeechSegment).language = lowerStr "es"
        ∨ (⟨"Hello", "en"⟩ : SpeechSegment).language = lowerStr "en") :=
  tagged_segmentation_correct.2.2.2.2 "[EN]Hello[/EN]" "es" "en" ⟨"Hello", "en"⟩
    (by decide)

/-- Claim C5: an untagged whole input that is nonempty after cleaning is
emitted as one segment, labelled with the explanation language exactly when
the languages differ and the count of hint-word hits among its alphabetic
words is at least max(2, wordCount/3), else with the target language; the
same classification applies to each untagged gap between tag matches, which
is likewise emitted as a single segment in place. -/
theorem untagged_gap_classification :
    (∀ (text t e : String),
      find_first_match text.data = none → clean_list text.data ≠ [] →
      split_speech_segments text t e
        = [⟨str_of_chars (clean_list text.data),
            if lowerStr t ≠ lowerStr e
                ∧ max 2 ((english_words (clean_list text.data)).length / 3)
                    ≤ english_hint_hits (clean_list text.data)
              then lowerStr e else lowerStr t⟩])
    ∧ (∀ (targetL explL : String) (pre post : List TagToken) (g : List Char),
        clean_list g ≠ [] →
        (pre ++ TagToken.gap g :: post).flatMap (token_segments targetL explL)
          = pre.flatMap (token_segments targetL explL)
            ++ ⟨str_of_chars (clean_list g),
                if targetL ≠ explL
                    ∧ max 2 ((english_words (clean_list g)).length / 3)
                        ≤ english_hint_hits (clean_list g)
                  then explL else targetL⟩
              :: post.flatMap (token_segments targetL explL))
    ∧ split_speech_segments "the of and to [TL]Hola[/TL]" "es" "en"
        = [⟨"the of and to", "en"⟩, ⟨"Hola", "es"⟩] := by
  refine ⟨?_, ?_, by decide⟩
  · intro text t e hf hcl
    have ht : text ≠ "" := by
      intro h
      rw [h] at hcl
      exact hcl rfl
    rw [split_speech_segments_no_match text t e ht hf]
    have hclf : (clean_list text.data).isEmpty = false := by
      simpa [List.isEmpty_iff] using hcl
    rw [if_neg (by simp [hclf]), guessed_language_eq]
  · intro targetL explL pre post g h
    have hb : (clean_list g).isEmpty = false := by simpa [List.isEmpty_iff] using h
    simp only [List.flatMap_append, List.flatMap_cons]
    rw [show token_segments targetL explL (TagToken.gap g)
        = [⟨str_of_chars (clean_list g), guessed_language targetL explL (clean_list g)⟩]
      from by simp [token_segments, hb]]
    rw [guessed_language_eq]
    simp

theorem untagged_gap_classification_witness :
    split_speech_segments "Hola amigo" "es" "en"
      = [⟨str_of_chars (clean_list ("Hola amigo" : String).data),
          if lowerStr "es" ≠ lowerStr "en"
              ∧ max 2 ((english_words (clean_list ("Hola amigo" : String).data)).length / 3)
                  ≤ english_hint_hits (clean_list ("Hola amigo" : String).data)
            then lowerStr "en" else lowerStr "es"⟩] :=
  untagged_gap_classification.1 "Hola amigo" "es" "en" (by decide) (by decide)

theorem floor_toNat_pos_of_half_le (d : Rat) (hd : 1/2 ≤ d) :
    0 < (⌊(22050 : Rat) * d⌋).toNat := by
  have h1 : (1 : Int) ≤ ⌊(22050 : Rat) * d⌋ := by
    rw [Int.le_floor]
    push_cast
    nlinarith
  omega

theorem fallback_sample_count_pos (t : String) (s : Option Rat) :
    0 < fallback_sample_count t s := by
  unfold fallback_sample_count
  exact floor_toNat_pos_of_half_le _ (le_max_left _ _)

theorem generate_fallback_audio_ne_nil (t : String) (s : Option Rat) :
    generate_fallback_audio t s ≠ [] := by
  unfold generate_fallback_audio
  have hp := fallback_sample_count_pos t s
  intro h
  have := congrArg List.length h
  simp [List.length_replicate] at this
  omega

theorem render_segments_ne_nil (synth : String → String → List Rat)
    (dv : String) (vm : List (String × String)) :
    ∀ segs, ∀ ch ∈ render_segments synth dv vm segs, ch ≠ [] := by
  intro segs
  induction segs with
  | nil =>
    intro ch h
    simp [render_segments] at h
  | cons seg rest ih =>
    intro ch h
    simp only [render_segments] at h
    split_ifs at h with h1 h2
    · exact ih ch h
    · exact ih ch h
    · rcases List.mem_cons.mp h with rfl | hm
      · simpa [List.isEmpty_iff] using h2
      · exact ih ch hm

theorem render_segments_empty_text (synth : String → String → List Rat)
    (dv : String) (vm : List (String × String)) :
    ∀ segs, (∀ seg ∈ segs, strip_ends seg.text.data = []) →
      render_segments synth dv vm segs = [] := by
  intro segs
  induction segs with
  | nil => intro _; rfl
  | cons seg rest ih =>
    intro h
    have hhd : (strip_ends seg.text.data).isEmpty = true := by
      simp [List.isEmpty_iff, h seg (List.mem_cons_self seg rest)]
    simp only [render_segments, hhd, if_true]
    exact ih (fun s hs => h s (List.mem_cons_of_mem seg hs))

theorem render_segments_zero_audio (synth : String → String → List Rat)
    (dv : String) (vm : List (String × String)) :
    ∀ segs, (∀ seg ∈ segs, synth (str_of_chars (strip_ends seg.text.data))
        ((alist_lookup vm (lowerStr seg.language)).getD dv) = []) →
      render_segments synth dv vm segs = [] := by
  intro segs
  induction segs with
  | nil => intro _; rfl
  | cons seg rest ih =>
    intro h
    have htl := ih (fun s hs => h s (List.mem_cons_of_mem seg hs))
    have hhd : (synth (str_of_chars (strip_ends seg.text.data))
        ((alist_lookup vm (lowerStr seg.language)).getD dv)).isEmpty = true := by
      simp [List.isEmpty_iff, h seg (List.mem_cons_self seg rest)]
    simp only [render_segments, hhd, htl]
    split_ifs <;> rfl

theorem merge_rest_eq (chunks : List (List Rat)) :
    merge_rest chunks = chunks.flatMap (fun ch => pause_samples ++ ch) := by
  induction chunks with
  | nil => rfl
  | cons c rest ih => simp [merge_rest, ih]

theorem normalize_audio_length (l : List Rat) (target : Rat) :
    (normalize_audio l target).length = l.length := by
  unfold normalize_audio
  split_ifs <;> simp

/-- Claim C9: synthesize_segments never raises (it is a total function of
its abstract collaborator) and never returns empty audio: an empty segment
list, a list whose segments all have empty or whitespace-only text, and a
list whose every surviving segment synthesizes zero-length audio each yield
the nonempty fallback clip; otherwise the output is the peak-normalized
concatenation of the surviving decoded segment buffers in original order
with exactly one fixed 3528-sample (160 ms at 22050 Hz) silence buffer
between consecutive buffers and none before the first or after the last. -/
theorem audio_assembly_fallback_and_pause :
    (∀ (synth : String → String → List Rat) (dv : String)
        (vm : List (String × String)) (segs : List SpeechSegment),
      synthesize_segments synth dv vm segs ≠ [])
    ∧ (∀ (synth : String → String → List Rat) (dv : String)
        (vm : List (String × String)),
      synthesize_segments synth dv vm [] = generate_fallback_audio "" none)
    ∧ (∀ (synth : String → String → List Rat) (dv : String)
        (vm : List (String × String)) (segs : List SpeechSegment),
      (∀ seg ∈ segs, strip_ends seg.text.data = []) →
      synthesize_segments synth dv vm segs = generate_fallback_audio "" none)
    ∧ (∀ (synth : String → String → List Rat) (dv : String)
        (vm : List (String × String)) (segs : List SpeechSegment),
      (∀ seg ∈ segs, synth (str_of_chars (strip_ends seg.text.data))
          ((alist_lookup vm (lowerStr seg.language)).getD dv) = []) →
      synthesize_segments synth dv vm segs = generate_fallback_audio "" none)
    ∧ generate_fallback_audio "" none ≠ []
    ∧ (∀ (synth : String → String → List Rat) (dv : String)
        (vm : List (String × String)) (segs : List SpeechSegment)
        (c : List Rat) (rest : List (List Rat)),
      render_segments synth dv vm segs = c :: rest →
      synthesize_segments synth dv vm segs
        = normalize_audio (c ++ rest.flatMap (fun ch => pause_samples ++ ch)) (9/10))
    ∧ pause_samples.length = 3528 := by
  refine ⟨?_, ?_, ?_, ?_, generate_fallback_audio_ne_nil "" none, ?_, by
    unfold pause_samples
    rw [List.length_replicate]⟩
  · intro synth dv vm segs
    unfold synthesize_segments
    by_cases hs : segs.isEmpty = true
    · simp only [hs, if_true]
      exact generate_fallback_audio_ne_nil "" none
    · have hsf : segs.isEmpty = false := by simpa using hs
      simp only [hsf, Bool.false_eq_true, if_false]
      cases hr : render_segments synth dv vm segs with
      | nil => simp only [List.isEmpty_nil, if_true]
               exact generate_fallback_audio_ne_nil "" none
      | cons c rest =>
        simp only [List.isEmpty_cons, Bool.false_eq_true, if_false]
        have hcne : c ≠ [] :=
          render_segments_ne_nil synth dv vm segs c (by rw [hr]; exact List.mem_cons_self c rest)
        intro hcontra
        have hlen := congrArg List.length hcontra
        rw [normalize_audio_length] at hlen
        simp [merge_with_pause] at hlen
        exact hcne hlen.1
  · intro synth dv vm
    rfl
  · intro synth dv vm segs h
    have hrender := render_segments_empty_text synth dv vm segs h
    by_cases hs : segs.isEmpty = true
    · simp [synthesize_segments, hs]
    · have hsf : segs.isEmpty = false := by simpa using hs
      simp [synthesize_segments, hsf, hrender]
  · intro synth dv vm segs h
    have hrender := render_segments_zero_audio synth dv vm segs h
    by_cases hs : segs.isEmpty = true
    · simp [synthesize_segments, hs]
    · have hsf : segs.isEmpty = false := by simpa using hs
      simp [synthesize_segments, hsf, hrender]
  · intro synth dv vm segs c rest hr
    have hsne : segs.isEmpty = false := by
      cases segs with
      | nil => rw [show render_segments synth dv vm [] = [] from rfl] at hr; cases hr
      | cons a b => rfl
    simp only [synthesize_segments, hsne, Bool.false_eq_true, if_false, hr,
      List.isEmpty_cons]
    simp [merge_with_pause, merge_rest_eq]

theorem audio_assembly_fallback_and_pause_witness :
    synthesize_segments (fun _ _ => [1]) "v" [] [⟨"  ", "en"⟩]
      = generate_fallback_audio "" none :=
  audio_assembly_fallback_and_pause.2.2.1 (fun _ _ => [1]) "v" [] [⟨"  ", "en"⟩]
    (by decide)

end LinguaLocal
